import Mathlib

/-!
Verification of the appotech-re firmware-sector editing tools.

This file shallowly embeds the Python sources of the repository:

* `src/common.py`           — `set_variable`, `indices_atoi_list`, `align_bytes`, `find_all`
* `src/obj/btinfo.py`       — the fixed-size BTINF record codec
* `src/obj/btpairing.py`    — the sentinel-terminated pairing database codec
* `src/obj/sfx.py`          — the SFX blob codec (descriptor table + payloads)
* `appotech-btpairing.py`   — entry insertion and the BtPairing injection path
* `appotech-sfx.py`         — the heuristic locator and the SfxBlob injection path

Modelling conventions:

* Python `bytes` are `List Nat` whose elements are < 256 where it matters;
  Python `str` values that only flow through byte codecs (names) are modelled
  by their UTF-8 byte sequences, and `str` values handled as character text
  (CLI field values) are modelled as `List Char`.
* Python slices `b[i:j]`, which clamp out-of-range bounds, are modelled with
  `List.take`/`List.drop` (which clamp the same way for natural indices);
  slices with possibly negative bounds use an explicit `pySliceTo`.
* Fallible operations return `Except`/`Option`; each raised Python exception
  is a distinct error constructor.
-/

namespace AppotechRE

/-- Error taxonomy of the repository (`src/error.py` plus the distinct Python
exceptions that can escape the code paths modelled here).
`truncated` carries expected and actual byte counts as in
`AppotechTruncatedError`.  `unboundLocal` models a Python `UnboundLocalError`
raised while formatting an error message (see `set_variable`); `valueError`
models an uncaught Python `ValueError`. -/
inductive Err where
  | truncated (expected actual : Nat)
  | invalidMagic
  | invalidEncoding
  | empty
  | outOfRange
  | unboundLocal
  | valueError
  | overflow
  deriving Repr, DecidableEq

instance {e a : Type} [DecidableEq e] [DecidableEq a] : DecidableEq (Except e a) := fun x y =>
  match x, y with
  | .error u, .error v =>
    if h : u = v then .isTrue (by rw [h]) else .isFalse (fun hh => h (Except.error.inj hh))
  | .ok u, .ok v =>
    if h : u = v then .isTrue (by rw [h]) else .isFalse (fun hh => h (Except.ok.inj hh))
  | .error _, .ok _ => .isFalse (fun hh => Except.noConfusion hh)
  | .ok _, .error _ => .isFalse (fun hh => Except.noConfusion hh)

/-- Python `b[:n]` for an `Int` bound `n`: a nonnegative bound clamps at the
length, a negative bound counts from the end (empty when `len + n ≤ 0`). -/
def pySliceTo (l : List Nat) (n : Int) : List Nat :=
  if 0 ≤ n then l.take n.toNat else l.take (l.length - (-n).toNat)

/-- Splicing used by both injection paths:
`input[:start] + blob + input[start + len(blob):]`. -/
def splice (input : List Nat) (start : Nat) (blob : List Nat) : List Nat :=
  input.take start ++ blob ++ input.drop (start + blob.length)

/-- `align_bytes` (`src/common.py`): pad `src` with `pad` up to the next
multiple of `alignTo`.  The Python code computes the new size as
`math.ceil(src_sz / align_to) * align_to`; the exact rational ceiling
`(n + a - 1) / a` is modelled. -/
def align_bytes (src : List Nat) (alignTo : Nat) (pad : Nat) : List Nat :=
  let newSz : Nat := ((src.length + alignTo - 1) / alignTo) * alignTo
  if src.length = newSz then src
  else src ++ List.replicate (newSz - src.length) (pad % 256)

/-- The BtPairing injection path (`AppotechBtPairing.save_output`,
`appotech-btpairing.py` lines 333–366): reconcile the freshly encoded
sector `blob` against the `oldSize`-byte region at `start` of `input`.
Note the faithful rendering of the padding branch: the source computes
`padding_sz = len(blob) - self.bp_size` (a negative number there) and
appends `b"\xFF" * padding_sz`, which is empty. -/
def btpairingInject (input : List Nat) (start oldSize : Nat) (blob : List Nat)
    (force : Bool) : Except Err (List Nat) :=
  if blob.length > oldSize then
    if force then
      let delta : Int := (start : Int) + blob.length - input.length
      let blob' := if delta > 0 then pySliceTo blob ((blob.length : Int) - delta) else blob
      .ok (splice input start blob')
    else
      .error .overflow
  else if blob.length < oldSize then
    let paddingSz : Int := (blob.length : Int) - oldSize
    let blob' := blob ++ List.replicate paddingSz.toNat 0xFF
    .ok (splice input start blob')
  else
    .ok (splice input start blob)

/-- The SfxBlob injection path (`AppotechSfx.repack_inject_output`,
`appotech-sfx.py` lines 308–338).  Unlike the BtPairing path, the
truncation `blob = blob[: len(blob) - delta]` sits outside the
`if delta > 0` guard, and the undersized case pads through `align_bytes`
with filler `0xFF`. -/
def sfxInject (input : List Nat) (start oldSize : Nat) (blob0 : List Nat)
    (force : Bool) : Except Err (List Nat) :=
  let blob1 := if blob0.length < oldSize then align_bytes blob0 oldSize 0xFF else blob0
  if blob1.length > oldSize then
    if force then
      let delta : Int := (start : Int) + blob1.length - input.length
      let blob2 := pySliceTo blob1 ((blob1.length : Int) - delta)
      .ok (splice input start blob2)
    else
      .error .overflow
  else
    .ok (splice input start blob1)

theorem splice_length {input blob : List Nat} {start : Nat}
    (h : start + blob.length ≤ input.length) :
    (splice input start blob).length = input.length := by
  have hs : start ≤ input.length := le_trans (Nat.le_add_right _ _) h
  simp [splice, List.length_append, List.length_take, List.length_drop,
    Nat.min_eq_left hs]
  omega

theorem align_bytes_nil (a pad : Nat) : align_bytes [] a pad = [] := by
  have hz : (a - 1) / a = 0 := by
    rcases Nat.eq_zero_or_pos a with rfl | ha
    · simp
    · exact Nat.div_eq_of_lt (by omega)
  simp [align_bytes, hz]

theorem align_bytes_of_le {src : List Nat} {a pad : Nat}
    (h0 : src ≠ []) (h : src.length ≤ a) :
    align_bytes src a pad = src ++ List.replicate (a - src.length) (pad % 256) := by
  have hlen : 0 < src.length := List.length_pos.mpr h0
  have ha : 0 < a := lt_of_lt_of_le hlen h
  have hceil : (src.length + a - 1) / a = 1 := by
    have hle : 1 ≤ (src.length + a - 1) / a := (Nat.le_div_iff_mul_le ha).2 (by omega)
    have hlt : (src.length + a - 1) / a < 2 := (Nat.div_lt_iff_lt_mul ha).2 (by omega)
    omega
  unfold align_bytes
  simp only [hceil, one_mul]
  rcases eq_or_lt_of_le h with heq | hlt
  · simp [heq]
  · simp [Nat.ne_of_lt hlt]

theorem align_bytes_length_le {src : List Nat} {a pad : Nat}
    (h : src.length ≤ a) : (align_bytes src a pad).length ≤ a := by
  rcases eq_or_ne src [] with rfl | h0
  · simp [align_bytes_nil]
  · rw [align_bytes_of_le h0 h]
    simp [List.length_append, List.length_replicate]
    omega

theorem btpairingInject_pad {input blob : List Nat} {start oldSize : Nat}
    {force : Bool} (hlt : blob.length < oldSize) :
    btpairingInject input start oldSize blob force = .ok (splice input start blob) := by
  have h1 : ¬ blob.length > oldSize := by omega
  have h2 : ((blob.length : Int) - oldSize).toNat = 0 := by omega
  simp [btpairingInject, h1, hlt, h2]

theorem sfxInject_pad {input blob : List Nat} {start oldSize : Nat}
    {force : Bool} (hlt : blob.length < oldSize) :
    sfxInject input start oldSize blob force
      = .ok (splice input start (align_bytes blob oldSize 0xFF)) := by
  have hle : (align_bytes blob oldSize 0xFF).length ≤ oldSize :=
    align_bytes_length_le (le_of_lt hlt)
  have h1 : ¬ (align_bytes blob oldSize 0xFF).length > oldSize := by omega
  simp [sfxInject, hlt, h1]

theorem btpairingInject_eq_size {input blob : List Nat} {start oldSize : Nat}
    {force : Bool} (heq : blob.length = oldSize) :
    btpairingInject input start oldSize blob force = .ok (splice input start blob) := by
  simp [btpairingInject, heq]

theorem sfxInject_eq_size {input blob : List Nat} {start oldSize : Nat}
    {force : Bool} (heq : blob.length = oldSize) :
    sfxInject input start oldSize blob force = .ok (splice input start blob) := by
  simp [sfxInject, heq]

/-- Both force paths keep exactly
`blob.take (blob.length - delta.toNat)` where
`delta = start + len(blob) - len(input)`. -/
def forceKept (input blob : List Nat) (start : Nat) : List Nat :=
  blob.take (blob.length - ((start : Int) + blob.length - input.length).toNat)

theorem pySliceTo_eq_forceKept {input blob : List Nat} {start : Nat}
    (hs : start ≤ input.length) :
    pySliceTo blob ((blob.length : Int) - ((start : Int) + blob.length - input.length))
      = forceKept input blob start := by
  have hnn : (0 : Int) ≤ (blob.length : Int) - ((start : Int) + blob.length - input.length) := by
    omega
  rw [pySliceTo, if_pos hnn, forceKept, List.take_eq_take]
  omega

theorem btpairingInject_force_ok {input blob : List Nat} {start oldSize : Nat}
    (h1 : oldSize < blob.length) (h2 : start + oldSize ≤ input.length) :
    btpairingInject input start oldSize blob true
      = .ok (splice input start (forceKept input blob start)) := by
  have hgt : blob.length > oldSize := h1
  have hs : start ≤ input.length := by omega
  have hblob : (if ((start : Int) + blob.length - input.length) > 0
      then pySliceTo blob ((blob.length : Int) - ((start : Int) + blob.length - input.length))
      else blob) = forceKept input blob start := by
    by_cases hd : ((start : Int) + blob.length - input.length) > 0
    · rw [if_pos hd, pySliceTo_eq_forceKept hs]
    · rw [if_neg hd]
      have htn0 : ((start : Int) + blob.length - input.length).toNat = 0 := by omega
      rw [forceKept, htn0, Nat.sub_zero, List.take_length]
  simp only [btpairingInject]
  rw [if_pos hgt, if_pos trivial, hblob]

theorem sfxInject_force_ok {input blob : List Nat} {start oldSize : Nat}
    (h1 : oldSize < blob.length) (h2 : start + oldSize ≤ input.length) :
    sfxInject input start oldSize blob true
      = .ok (splice input start (forceKept input blob start)) := by
  have hnlt : ¬ blob.length < oldSize := by omega
  have hgt : blob.length > oldSize := h1
  have hs : start ≤ input.length := by omega
  simp only [sfxInject]
  rw [if_neg hnlt, if_pos hgt, if_pos trivial, pySliceTo_eq_forceKept hs]

theorem forceKept_length_bound {input blob : List Nat} {start : Nat}
    (h2 : start ≤ input.length) :
    start + (forceKept input blob start).length ≤ input.length
      ∨ (forceKept input blob start = blob ∧ start + blob.length ≤ input.length) := by
  by_cases hd : ((start : Int) + blob.length - input.length) > 0
  · left
    have : (forceKept input blob start).length
        = blob.length - ((start : Int) + blob.length - input.length).toNat := by
      simp [forceKept, List.length_take]
    omega
  · right
    have htn0 : ((start : Int) + blob.length - input.length).toNat = 0 := by omega
    constructor
    · simp [forceKept, htn0]
    · omega

theorem forceKept_splice_length {input blob : List Nat} {start : Nat}
    (h2 : start ≤ input.length) :
    (splice input start (forceKept input blob start)).length = input.length := by
  rcases @forceKept_length_bound input blob start h2 with h | ⟨he, hb⟩
  · exact splice_length h
  · rw [he]; exact splice_length hb

/-- C1: the claim states that for `new_size < old_size` both injection paths
splice `original[0:start] ++ new ++ 0xFF×(old_size−new_size) ++ original[start+old_size:]`.
The SfxBlob path does (second conjunct), but the BtPairing path computes
`padding_sz = len(blob) - bp_size` (negative) so `b"\xFF" * padding_sz` adds
no padding at all: at the concrete input below the old region's tail bytes
`5,6,7,8` survive instead of being replaced by `0xFF` filler (first conjunct),
so the two paths disagree (third conjunct). -/
theorem C1_btpairing_pad_drops_filler :
    btpairingInject [1, 2, 3, 4, 5, 6, 7, 8, 9, 10] 2 6 [0xAA, 0xBB] false
      = .ok [1, 2, 0xAA, 0xBB, 5, 6, 7, 8, 9, 10]
    ∧ sfxInject [1, 2, 3, 4, 5, 6, 7, 8, 9, 10] 2 6 [0xAA, 0xBB] false
      = .ok [1, 2, 0xAA, 0xBB, 0xFF, 0xFF, 0xFF, 0xFF, 9, 10]
    ∧ ([1, 2, 0xAA, 0xBB, 5, 6, 7, 8, 9, 10] : List Nat)
      ≠ [1, 2, 0xAA, 0xBB, 0xFF, 0xFF, 0xFF, 0xFF, 9, 10] := by
  refine ⟨rfl, rfl, by decide⟩

/-- C4: when the new sector is strictly larger than the replaced region,
both injection paths fail with `Overflow` without `force`; with `force` they
keep `blob[: len(blob) − delta]` for `delta = start + len(blob) − len(input)`
(the whole blob when `delta ≤ 0`), splice it, and the result's length never
exceeds the original buffer's length. -/
theorem C4_oversized_injection_policy (input blob : List Nat) (start oldSize : Nat)
    (h1 : oldSize < blob.length) (h2 : start + oldSize ≤ input.length) :
    btpairingInject input start oldSize blob false = .error .overflow
    ∧ sfxInject input start oldSize blob false = .error .overflow
    ∧ btpairingInject input start oldSize blob true
        = .ok (splice input start (forceKept input blob start))
    ∧ sfxInject input start oldSize blob true
        = .ok (splice input start (forceKept input blob start))
    ∧ forceKept input blob start
        = blob.take (blob.length - ((start : Int) + blob.length - input.length).toNat)
    ∧ (splice input start (forceKept input blob start)).length = input.length := by
  have hgt : blob.length > oldSize := h1
  have hnlt : ¬ blob.length < oldSize := by omega
  have hs : start ≤ input.length := by omega
  refine ⟨?_, ?_, btpairingInject_force_ok h1 h2, sfxInject_force_ok h1 h2, rfl,
    forceKept_splice_length hs⟩
  · simp [btpairingInject, hgt]
  · simp [sfxInject, hnlt, hgt]

/-- Witness for C4 at a concrete input (`delta ≤ 0` force case). -/
theorem C4_oversized_injection_policy_witness :
    4 < List.length [1, 2, 3, 4, 5, 6]
    ∧ 2 + 4 ≤ List.length [10, 20, 30, 40, 50, 60, 70, 80, 90, 100]
    ∧ btpairingInject [10, 20, 30, 40, 50, 60, 70, 80, 90, 100] 2 4 [1, 2, 3, 4, 5, 6] false
        = .error .overflow :=
  ⟨by decide, by decide,
    (C4_oversized_injection_policy [10, 20, 30, 40, 50, 60, 70, 80, 90, 100]
      [1, 2, 3, 4, 5, 6] 2 4 (by decide) (by decide)).1⟩

/-- C9: every successful injection — undersized, equal-sized, or forced
oversized, in either path — returns a buffer of exactly the original
buffer's length, provided the replaced span `[start, start+oldSize)` lies
inside the original buffer. -/
theorem C9_injection_preserves_length (input blob : List Nat) (start oldSize : Nat)
    (force : Bool) (h : start + oldSize ≤ input.length) :
    (∀ out, btpairingInject input start oldSize blob force = .ok out →
        out.length = input.length)
    ∧ (∀ out, sfxInject input start oldSize blob force = .ok out →
        out.length = input.length) := by
  have hs : start ≤ input.length := by omega
  constructor
  · intro out hout
    rcases Nat.lt_trichotomy blob.length oldSize with hlt | heq | hgt
    · rw [btpairingInject_pad hlt] at hout
      injection hout with hout
      rw [← hout]
      exact splice_length (by omega)
    · rw [btpairingInject_eq_size heq] at hout
      injection hout with hout
      rw [← hout]
      exact splice_length (by omega)
    · cases force with
      | false => simp [btpairingInject, hgt] at hout
      | true =>
        rw [btpairingInject_force_ok hgt h] at hout
        injection hout with hout
        rw [← hout]
        exact forceKept_splice_length hs
  · intro out hout
    rcases Nat.lt_trichotomy blob.length oldSize with hlt | heq | hgt
    · rw [sfxInject_pad hlt] at hout
      injection hout with hout
      rw [← hout]
      have hlen : (align_bytes blob oldSize 0xFF).length ≤ oldSize :=
        align_bytes_length_le (le_of_lt hlt)
      exact splice_length (by omega)
    · rw [sfxInject_eq_size heq] at hout
      injection hout with hout
      rw [← hout]
      exact splice_length (by omega)
    · cases force with
      | false => simp [sfxInject, hgt, Nat.lt_asymm hgt] at hout
      | true =>
        rw [sfxInject_force_ok hgt h] at hout
        injection hout with hout
        rw [← hout]
        exact forceKept_splice_length hs

/-- Witness for C9 at a concrete input (undersized case in both paths). -/
theorem C9_injection_preserves_length_witness :
    1 + 2 ≤ List.length [9, 9, 9, 9, 9]
    ∧ (∀ out, btpairingInject [9, 9, 9, 9, 9] 1 2 [7] false = .ok out →
        out.length = List.length [9, 9, 9, 9, 9]) :=
  ⟨by decide, (C9_injection_preserves_length [9, 9, 9, 9, 9] [7] 1 2 false (by decide)).1⟩

/-! ### UTF-8 validity

Python decodes names with `bytes.decode("utf-8")`, which rejects exactly the
byte sequences that are not well-formed UTF-8 (RFC 3629: no overlong forms,
no surrogates, no code points above U+10FFFF).  `utf8Valid` is that
well-formedness check on byte lists. -/

/-- A UTF-8 continuation byte (`0x80..0xBF`). -/
def utf8Cont (b : Nat) : Bool := decide (0x80 ≤ b ∧ b ≤ 0xBF)

/-- Well-formedness of a byte sequence as UTF-8 (Python `decode("utf-8")`
succeeds exactly on these). -/
def utf8Valid : List Nat → Bool
  | [] => true
  | b :: rest =>
    if b ≤ 0x7F then utf8Valid rest
    else if 0xC2 ≤ b ∧ b ≤ 0xDF then
      match rest with
      | c1 :: r => utf8Cont c1 && utf8Valid r
      | [] => false
    else if b = 0xE0 then
      match rest with
      | c1 :: c2 :: r => decide (0xA0 ≤ c1 ∧ c1 ≤ 0xBF) && utf8Cont c2 && utf8Valid r
      | _ => false
    else if (0xE1 ≤ b ∧ b ≤ 0xEC) ∨ b = 0xEE ∨ b = 0xEF then
      match rest with
      | c1 :: c2 :: r => utf8Cont c1 && utf8Cont c2 && utf8Valid r
      | _ => false
    else if b = 0xED then
      match rest with
      | c1 :: c2 :: r => decide (0x80 ≤ c1 ∧ c1 ≤ 0x9F) && utf8Cont c2 && utf8Valid r
      | _ => false
    else if b = 0xF0 then
      match rest with
      | c1 :: c2 :: c3 :: r =>
        decide (0x90 ≤ c1 ∧ c1 ≤ 0xBF) && utf8Cont c2 && utf8Cont c3 && utf8Valid r
      | _ => false
    else if 0xF1 ≤ b ∧ b ≤ 0xF3 then
      match rest with
      | c1 :: c2 :: c3 :: r => utf8Cont c1 && utf8Cont c2 && utf8Cont c3 && utf8Valid r
      | _ => false
    else if b = 0xF4 then
      match rest with
      | c1 :: c2 :: c3 :: r =>
        decide (0x80 ≤ c1 ∧ c1 ≤ 0x8F) && utf8Cont c2 && utf8Cont c3 && utf8Valid r
      | _ => false
    else false

/-! ### BtInfo codec (`src/obj/btinfo.py`)

The record layout is `MAGIC` (5 bytes `"BTINF"`) followed by the struct
format `"<xBBBB4x32s6s10xH"`: one pad byte, `flags`, the three mic fields,
four pad bytes, the 32-byte name field, the 6-byte (reversed) MAC field,
ten pad bytes, and the little-endian 16-bit checksum.  Python `str` names
are modelled by their UTF-8 byte sequences. -/

def btinfoMAGIC : List Nat := [66, 84, 73, 78, 70]

/-- `BtInfo.SIZE = len(MAGIC) + struct.calcsize("<xBBBB4x32s6s10xH")`
`= 5 + (1+4+4+32+6+10+2) = 64`. -/
def btinfoSIZE : Nat := btinfoMAGIC.length + (1 + 4 + 4 + 32 + 6 + 10 + 2)

structure BtInfo where
  flags : Nat
  mic_unmute_thresh : Nat
  mic_mute_thresh : Nat
  mic_mute_duration : Nat
  bt_name : List Nat
  bt_mac : List Nat
  checksum : Nat
  deriving Repr, DecidableEq

/-- `struct` `"Ns"` packing: truncate to `n` bytes or pad with NUL. -/
def packS (n : Nat) (s : List Nat) : List Nat :=
  s.take n ++ List.replicate (n - s.length) 0

/-- The bytes before the checksum
(`self.MAGIC + struct.pack(self._FMT[:-1], ...)` in `BtInfo.__bytes__`);
the MAC is re-reversed on encode. -/
def btinfoDataWithoutChecksum (r : BtInfo) : List Nat :=
  btinfoMAGIC ++ [0] ++ [r.flags, r.mic_unmute_thresh, r.mic_mute_thresh, r.mic_mute_duration]
    ++ [0, 0, 0, 0] ++ packS 32 r.bt_name ++ packS 6 r.bt_mac.reverse
    ++ List.replicate 10 0

/-- `BtInfo.__bytes__`.  `none` models a `struct.error`: a `"B"` field whose
value is not a byte, or a checksum that does not fit `"<H"` (the entries of
`bt_name`/`bt_mac` are guarded too — Python `bytes` cannot hold values
≥ 256 at all). -/
def btinfoBytes (r : BtInfo) : Option (List Nat) :=
  if r.flags < 256 ∧ r.mic_unmute_thresh < 256 ∧ r.mic_mute_thresh < 256
      ∧ r.mic_mute_duration < 256 ∧ (∀ b ∈ r.bt_name, b < 256) ∧ (∀ b ∈ r.bt_mac, b < 256) then
    let d := btinfoDataWithoutChecksum r
    let cks := d.sum
    if cks < 65536 then some (d ++ [cks % 256, cks / 256]) else none
  else none

/-- `BtInfo.load`.  Offsets follow `_FMT` unpacked against `data[5:64]`:
`flags` at 6, mic fields at 7–9, name field at 14–45, MAC field at 46–51,
checksum at 62–63.  The name is cut at the first NUL and must decode as
UTF-8; the MAC is reversed; a checksum mismatch only warns and is not
modelled as an outcome. -/
def btinfoLoad (data : List Nat) : Except Err BtInfo :=
  if data.length < btinfoSIZE then .error (.truncated btinfoSIZE data.length)
  else if data.take btinfoMAGIC.length ≠ btinfoMAGIC then .error .invalidMagic
  else
    let nameRaw := ((data.drop 14).take 32).takeWhile (fun b => b != 0)
    if utf8Valid nameRaw then
      .ok { flags := data.getD 6 0
            mic_unmute_thresh := data.getD 7 0
            mic_mute_thresh := data.getD 8 0
            mic_mute_duration := data.getD 9 0
            bt_name := nameRaw
            bt_mac := ((data.drop 46).take 6).reverse
            checksum := data.getD 62 0 + 256 * data.getD 63 0 }
    else .error .invalidEncoding

theorem packS_length (n : Nat) (s : List Nat) : (packS n s).length = n := by
  simp [packS, List.length_append, List.length_take, List.length_replicate]
  omega

theorem packS_of_le {n : Nat} {s : List Nat} (h : s.length ≤ n) :
    packS n s = s ++ List.replicate (n - s.length) 0 := by
  simp [packS, List.take_of_length_le h]

theorem takeWhile_ne_zero_append_replicate {l : List Nat}
    (h : ∀ b ∈ l, b ≠ 0) (k : Nat) :
    (l ++ List.replicate k 0).takeWhile (fun b => b != 0) = l := by
  induction l with
  | nil =>
    simp only [List.nil_append]
    cases k with
    | zero => simp
    | succ n => simp [List.replicate_succ, List.takeWhile_cons]
  | cons a l ih =>
    have ha : a ≠ 0 := h a (List.mem_cons_self a l)
    have ha' : (a != 0) = true := by simpa using ha
    simp [List.takeWhile_cons, ha', ih (fun b hb => h b (List.mem_cons_of_mem a hb))]

theorem btinfoData_mem_le (r : BtInfo)
    (hf : r.flags < 256) (h1 : r.mic_unmute_thresh < 256) (h2 : r.mic_mute_thresh < 256)
    (h3 : r.mic_mute_duration < 256) (hn : ∀ b ∈ r.bt_name, b < 256)
    (hm : ∀ b ∈ r.bt_mac, b < 256) :
    ∀ x ∈ btinfoDataWithoutChecksum r, x ≤ 255 := by
  have hpackName : ∀ x ∈ packS 32 r.bt_name, x ≤ 255 := by
    intro x hx
    rcases List.mem_append.mp hx with hx | hx
    · have := hn x (List.take_subset 32 r.bt_name hx); omega
    · rw [List.mem_replicate] at hx; omega
  have hpackMac : ∀ x ∈ packS 6 r.bt_mac.reverse, x ≤ 255 := by
    intro x hx
    rcases List.mem_append.mp hx with hx | hx
    · have hx' : x ∈ r.bt_mac := List.mem_reverse.mp (List.take_subset 6 r.bt_mac.reverse hx)
      have := hm x hx'; omega
    · rw [List.mem_replicate] at hx; omega
  simp only [btinfoDataWithoutChecksum, List.forall_mem_append]
  refine ⟨⟨⟨⟨⟨⟨?_, ?_⟩, ?_⟩, ?_⟩, hpackName⟩, hpackMac⟩, ?_⟩
  · intro x hx; simp [btinfoMAGIC] at hx; rcases hx with rfl | rfl | rfl | rfl | rfl <;> omega
  · intro x hx; simp at hx; omega
  · intro x hx; simp at hx; rcases hx with rfl | rfl | rfl | rfl <;> omega
  · intro x hx; simp at hx; omega
  · intro x hx; rw [List.mem_replicate] at hx; omega

theorem btinfoData_length (r : BtInfo) : (btinfoDataWithoutChecksum r).length = 62 := by
  simp [btinfoDataWithoutChecksum, btinfoMAGIC, packS_length, List.length_append,
    List.length_replicate]

theorem btinfoData_sum_lt (r : BtInfo)
    (hf : r.flags < 256) (h1 : r.mic_unmute_thresh < 256) (h2 : r.mic_mute_thresh < 256)
    (h3 : r.mic_mute_duration < 256) (hn : ∀ b ∈ r.bt_name, b < 256)
    (hm : ∀ b ∈ r.bt_mac, b < 256) :
    (btinfoDataWithoutChecksum r).sum ≤ 62 * 255 := by
  have h := List.sum_le_card_nsmul (btinfoDataWithoutChecksum r) 255
    (btinfoData_mem_le r hf h1 h2 h3 hn hm)
  rwa [btinfoData_length, smul_eq_mul] at h

theorem btinfoBytes_eq (r : BtInfo)
    (hf : r.flags < 256) (h1 : r.mic_unmute_thresh < 256) (h2 : r.mic_mute_thresh < 256)
    (h3 : r.mic_mute_duration < 256) (hn : ∀ b ∈ r.bt_name, b < 256)
    (hm : ∀ b ∈ r.bt_mac, b < 256) :
    btinfoBytes r = some (btinfoDataWithoutChecksum r
      ++ [(btinfoDataWithoutChecksum r).sum % 256, (btinfoDataWithoutChecksum r).sum / 256]) := by
  have hcks : (btinfoDataWithoutChecksum r).sum < 65536 := by
    have := btinfoData_sum_lt r hf h1 h2 h3 hn hm
    omega
  simp only [btinfoBytes]
  rw [if_pos ⟨hf, h1, h2, h3, hn, hm⟩, if_pos hcks]

/-- C10 (amended): the counterexample below forces `62` to become `64` and
`60` to become `62`.  For every record with byte-sized numeric fields (and
byte-valued name/MAC lists, which Python's `bytes` type guarantees), encode
succeeds and returns exactly `SIZE = 64` bytes; the name field occupies
exactly 32 bytes and the MAC field exactly 6; the checksum is the sum of
the 62 preceding bytes, bounded by `62*255 = 15810 < 65536`, so packing it
as `"<H"` can never overflow. -/
theorem C10_encode_total_fixed_size (r : BtInfo)
    (hf : r.flags < 256) (h1 : r.mic_unmute_thresh < 256) (h2 : r.mic_mute_thresh < 256)
    (h3 : r.mic_mute_duration < 256) (hn : ∀ b ∈ r.bt_name, b < 256)
    (hm : ∀ b ∈ r.bt_mac, b < 256) :
    ∃ bs, btinfoBytes r = some bs ∧ bs.length = btinfoSIZE ∧ btinfoSIZE = 64
      ∧ (packS 32 r.bt_name).length = 32 ∧ (packS 6 r.bt_mac.reverse).length = 6
      ∧ (btinfoDataWithoutChecksum r).length = 62
      ∧ (btinfoDataWithoutChecksum r).sum ≤ 62 * 255 ∧ 62 * 255 < 65536 := by
  refine ⟨_, btinfoBytes_eq r hf h1 h2 h3 hn hm, ?_, rfl, packS_length 32 _, packS_length 6 _,
    btinfoData_length r, btinfoData_sum_lt r hf h1 h2 h3 hn hm, by omega⟩
  simp [List.length_append, btinfoData_length]
  rfl

/-- C10 counterexample: the claim says encode returns exactly `SIZE (62)`
bytes; on the empty default record the encoder in fact returns 64 bytes
(`SIZE` itself is 64: 5 magic bytes plus the 59-byte struct). -/
theorem C10_counterexample_size_not_62 :
    Option.map List.length (btinfoBytes ⟨0, 0, 0, 0, [], [], 0⟩) ≠ some 62
      ∧ Option.map List.length (btinfoBytes ⟨0, 0, 0, 0, [], [], 0⟩) = some 64 := by
  constructor
  · decide
  · decide

/-- C6: for every valid record (byte-sized numeric fields, name of at most
32 UTF-8 bytes with no NUL, 6-byte MAC), decoding the encoding reproduces
every field except `checksum`; the decoded checksum equals
`sum(encode(r)[:-2]) mod 65536`; in particular `bt_mac` round-trips because
the reversal at encode and decode cancels. -/
theorem C6_btinfo_round_trip (r : BtInfo)
    (hf : r.flags < 256) (h1 : r.mic_unmute_thresh < 256) (h2 : r.mic_mute_thresh < 256)
    (h3 : r.mic_mute_duration < 256)
    (hnlen : r.bt_name.length ≤ 32) (hnz : ∀ b ∈ r.bt_name, b ≠ 0)
    (hnb : ∀ b ∈ r.bt_name, b < 256) (hutf : utf8Valid r.bt_name = true)
    (hmlen : r.bt_mac.length = 6) (hmb : ∀ b ∈ r.bt_mac, b < 256) :
    ∃ bs, btinfoBytes r = some bs
      ∧ btinfoLoad bs = .ok
          { flags := r.flags
            mic_unmute_thresh := r.mic_unmute_thresh
            mic_mute_thresh := r.mic_mute_thresh
            mic_mute_duration := r.mic_mute_duration
            bt_name := r.bt_name
            bt_mac := r.bt_mac
            checksum := (bs.take (bs.length - 2)).sum % 65536 } := by
  have hcks : (btinfoDataWithoutChecksum r).sum < 65536 := by
    have := btinfoData_sum_lt r hf h1 h2 h3 hnb hmb
    omega
  refine ⟨_, btinfoBytes_eq r hf h1 h2 h3 hnb hmb, ?_⟩
  set cks := (btinfoDataWithoutChecksum r).sum with hcksdef
  set e := packS 32 r.bt_name with hedef
  set m := packS 6 r.bt_mac.reverse with hmdef
  set bs := btinfoDataWithoutChecksum r ++ [cks % 256, cks / 256] with hbsdef
  have he : e.length = 32 := packS_length 32 _
  have hm6 : m.length = 6 := packS_length 6 _
  have hbs : bs = 66 :: 84 :: 73 :: 78 :: 70 :: 0 :: r.flags :: r.mic_unmute_thresh ::
      r.mic_mute_thresh :: r.mic_mute_duration :: 0 :: 0 :: 0 :: 0 ::
      (e ++ (m ++ (List.replicate 10 0 ++ [cks % 256, cks / 256]))) := by
    rw [hbsdef]
    simp [btinfoDataWithoutChecksum, btinfoMAGIC, List.append_assoc]
  have hdlen : (btinfoDataWithoutChecksum r).length = 62 := btinfoData_length r
  have hlen64 : bs.length = 64 := by
    rw [hbsdef]
    simp [List.length_append, hdlen]
  have hdrop14 : bs.drop 14 = e ++ (m ++ (List.replicate 10 0 ++ [cks % 256, cks / 256])) := by
    rw [hbs]
    rfl
  have hname : (bs.drop 14).take 32 = e := by
    rw [hdrop14]
    exact List.take_left' he
  have hnameRaw : ((bs.drop 14).take 32).takeWhile (fun b => b != 0) = r.bt_name := by
    rw [hname, hedef, packS_of_le hnlen]
    exact takeWhile_ne_zero_append_replicate hnz _
  have hdrop46 : bs.drop 46 = m ++ (List.replicate 10 0 ++ [cks % 256, cks / 256]) := by
    have h46 : bs.drop 46 = (bs.drop 14).drop 32 := by
      rw [List.drop_drop]
    rw [h46, hdrop14, List.drop_left' he]
  have hmac : ((bs.drop 46).take 6).reverse = r.bt_mac := by
    rw [hdrop46, List.take_left' hm6, hmdef, packS_of_le (by rw [List.length_reverse, hmlen])]
    rw [List.length_reverse, hmlen]
    simp
  have hflags : bs.getD 6 0 = r.flags := by rw [hbs]; rfl
  have hg7 : bs.getD 7 0 = r.mic_unmute_thresh := by rw [hbs]; rfl
  have hg8 : bs.getD 8 0 = r.mic_mute_thresh := by rw [hbs]; rfl
  have hg9 : bs.getD 9 0 = r.mic_mute_duration := by rw [hbs]; rfl
  have hg62 : bs.getD 62 0 = cks % 256 := by
    rw [hbs]
    show (e ++ (m ++ (List.replicate 10 0 ++ [cks % 256, cks / 256]))).getD 48 0 = cks % 256
    rw [List.getD_append_right _ _ _ _ (by rw [he]; omega), he]
    rw [List.getD_append_right _ _ _ _ (by rw [hm6]; omega), hm6]
    rfl
  have hg63 : bs.getD 63 0 = cks / 256 := by
    rw [hbs]
    show (e ++ (m ++ (List.replicate 10 0 ++ [cks % 256, cks / 256]))).getD 49 0 = cks / 256
    rw [List.getD_append_right _ _ _ _ (by rw [he]; omega), he]
    rw [List.getD_append_right _ _ _ _ (by rw [hm6]; omega), hm6]
    rfl
  have htake62 : bs.take (bs.length - 2) = btinfoDataWithoutChecksum r := by
    rw [hlen64, hbsdef]
    exact List.take_left' hdlen
  have hmagic : bs.take btinfoMAGIC.length = btinfoMAGIC := by rw [hbs]; rfl
  simp only [btinfoLoad]
  rw [if_neg (by rw [hlen64]; decide : ¬ bs.length < btinfoSIZE)]
  rw [if_neg (by rw [hmagic]; exact fun h => h rfl)]
  rw [if_pos (by rw [hnameRaw]; exact hutf)]
  rw [hnameRaw, hflags, hg7, hg8, hg9, hmac, hg62, hg63, htake62]
  have hsum : cks % 256 + 256 * (cks / 256) = cks := Nat.mod_add_div cks 256
  rw [hsum, Nat.mod_eq_of_lt hcks]

/-- Witness for C6 at a concrete record. -/
theorem C6_btinfo_round_trip_witness :
    (3 < 256 ∧ List.length [72, 105] ≤ 32 ∧ (∀ b ∈ [72, 105], b ≠ 0)
      ∧ utf8Valid [72, 105] = true ∧ List.length [1, 2, 3, 4, 5, 6] = 6)
    ∧ ∃ bs, btinfoBytes ⟨3, 1, 2, 4, [72, 105], [1, 2, 3, 4, 5, 6], 0⟩ = some bs
        ∧ btinfoLoad bs = .ok
            { flags := 3, mic_unmute_thresh := 1, mic_mute_thresh := 2, mic_mute_duration := 4
              bt_name := [72, 105], bt_mac := [1, 2, 3, 4, 5, 6]
              checksum := (bs.take (bs.length - 2)).sum % 65536 } :=
  ⟨⟨by decide, by decide, by decide, by decide, by decide⟩,
    C6_btinfo_round_trip ⟨3, 1, 2, 4, [72, 105], [1, 2, 3, 4, 5, 6], 0⟩
      (by decide) (by decide) (by decide) (by decide) (by decide) (by decide)
      (by decide) (by decide) (by decide) (by decide)⟩

/-- Witness for C10 at a concrete record. -/
theorem C10_encode_total_fixed_size_witness :
    (3 < 256 ∧ (∀ b ∈ [72, 105], b < 256) ∧ (∀ b ∈ [1, 2, 3, 4, 5, 6], b < 256))
    ∧ ∃ bs, btinfoBytes ⟨3, 0, 0, 0, [72, 105], [1, 2, 3, 4, 5, 6], 0⟩ = some bs
        ∧ bs.length = btinfoSIZE ∧ btinfoSIZE = 64
        ∧ (packS 32 [72, 105]).length = 32
        ∧ (packS 6 (List.reverse [1, 2, 3, 4, 5, 6])).length = 6
        ∧ (btinfoDataWithoutChecksum ⟨3, 0, 0, 0, [72, 105], [1, 2, 3, 4, 5, 6], 0⟩).length = 62
        ∧ (btinfoDataWithoutChecksum ⟨3, 0, 0, 0, [72, 105], [1, 2, 3, 4, 5, 6], 0⟩).sum ≤ 62 * 255
        ∧ 62 * 255 < 65536 :=
  ⟨⟨by decide, by decide, by decide⟩,
    C10_encode_total_fixed_size ⟨3, 0, 0, 0, [72, 105], [1, 2, 3, 4, 5, 6], 0⟩
      (by decide) (by decide) (by decide) (by decide) (by decide) (by decide)⟩

/-! ### BtPairing codec (`src/obj/btpairing.py`)

Header magic `"BTPAIREDINFOHEAD"` (16 bytes), then consecutive 55-byte
entries (`"<16s6s32sB"`: 16-byte link key, 6-byte reversed MAC, 32-byte
NUL-padded name, `is_valid` byte), terminated by the first entry whose raw
`is_valid` byte is not `1`, then one `paired_idx` byte. -/

def btpairingMAGIC : List Nat :=
  [66, 84, 80, 65, 73, 82, 69, 68, 73, 78, 70, 79, 72, 69, 65, 68]

/-- `struct.calcsize("<16s6s32sB") = 55`. -/
def btpairingEntrySIZE : Nat := 16 + 6 + 32 + 1

structure BtPairingEntry where
  link_key : List Nat
  bt_mac : List Nat
  bt_name : List Nat
  is_valid : Bool
  deriving Repr, DecidableEq

structure BtPairingDb where
  entries : List BtPairingEntry
  paired_idx : Nat
  deriving Repr, DecidableEq

/-- `BtPairing.Entry.load`: unpack one 55-byte entry, reversing the MAC and
cutting the name at the first NUL; the name bytes must decode as UTF-8. -/
def btpairingEntryLoad (data : List Nat) : Except Err BtPairingEntry :=
  if data.length < btpairingEntrySIZE then
    .error (.truncated btpairingEntrySIZE data.length)
  else
    let nameRaw := ((data.drop 22).take 32).takeWhile (fun b => b != 0)
    if utf8Valid nameRaw then
      .ok { link_key := data.take 16
            bt_mac := ((data.drop 16).take 6).reverse
            bt_name := nameRaw
            is_valid := data.getD 54 0 == 1 }
    else .error .invalidEncoding

/-- The entry-reading loop of `BtPairing.load`: starting at `off`, read
55-byte entries while at least 55 bytes remain and the slot's raw
`is_valid` byte (`entry_data[-1]`) is exactly `1`; return the accepted
entries and the offset just past them. -/
def btpairingReadEntries (data : List Nat) (off : Nat) :
    Except Err (List BtPairingEntry × Nat) :=
  if _hrem : data.length - off < btpairingEntrySIZE then .ok ([], off)
  else
    let entryData := (data.drop off).take btpairingEntrySIZE
    if entryData.getD 54 0 ≠ 1 then .ok ([], off)
    else
      (btpairingEntryLoad entryData).bind fun ent =>
        (btpairingReadEntries data (off + btpairingEntrySIZE)).bind fun r =>
          .ok (ent :: r.1, r.2)
  termination_by data.length - off
  decreasing_by simp_wf; simp only [btpairingEntrySIZE] at *; omega

/-- `BtPairing.load`: require magic plus room for one entry plus the
trailing byte; read entries; fail `Empty` when none were accepted; then
read exactly one `paired_idx` byte (`Truncated` when absent). -/
def btpairingLoad (data : List Nat) : Except Err BtPairingDb :=
  if data.length < btpairingMAGIC.length + btpairingEntrySIZE + 1 then
    .error (.truncated (btpairingMAGIC.length + btpairingEntrySIZE + 1) data.length)
  else if data.take btpairingMAGIC.length ≠ btpairingMAGIC then .error .invalidMagic
  else
    match btpairingReadEntries data btpairingMAGIC.length with
    | .error e => .error e
    | .ok (es, off) =>
      if es = [] then .error .empty
      else if data.length - off < 1 then .error (.truncated 1 (data.length - off))
      else .ok { entries := es, paired_idx := data.getD off 0 }

/-- The name bytes of the `i`-th 55-byte entry slot (cut at the first NUL),
as the decoder would read them. -/
def nameBytesAt (data : List Nat) (i : Nat) : List Nat :=
  ((((data.drop (16 + 55 * i)).take 55).drop 22).take 32).takeWhile (fun b => b != 0)

/-- C7's description of one entry, transcribed from the claim: the claim
describes acceptance purely by the `is_valid` byte, with no UTF-8 failure
mode, so the name prefix is imported unconditionally. -/
def btpairingEntryLoadClaim (data : List Nat) : BtPairingEntry :=
  { link_key := data.take 16
    bt_mac := ((data.drop 16).take 6).reverse
    bt_name := ((data.drop 22).take 32).takeWhile (fun b => b != 0)
    is_valid := data.getD 54 0 == 1 }

/-- C7's description of the reading loop, transcribed from the claim:
accept consecutive fixed-size entries, stop (not an error) when fewer than
one entry's size of bytes remain or at the first entry whose raw
`is_valid` byte is not `1` (discarding it). -/
def btpairingReadEntriesClaim (data : List Nat) (off : Nat) :
    List BtPairingEntry × Nat :=
  if _hrem : data.length - off < btpairingEntrySIZE then ([], off)
  else
    let entryData := (data.drop off).take btpairingEntrySIZE
    if entryData.getD 54 0 ≠ 1 then ([], off)
    else
      let rest := btpairingReadEntriesClaim data (off + btpairingEntrySIZE)
      (btpairingEntryLoadClaim entryData :: rest.1, rest.2)
  termination_by data.length - off
  decreasing_by simp_wf; simp only [btpairingEntrySIZE] at *; omega

/-- C7's description of the whole decode, transcribed from the claim:
fail `Empty` when zero entries were accepted, otherwise read exactly one
further byte as `paired_idx`, failing `Truncated` when that byte is
absent. -/
def btpairingLoadClaim (data : List Nat) : Except Err BtPairingDb :=
  if data.length < btpairingMAGIC.length + btpairingEntrySIZE + 1 then
    .error (.truncated (btpairingMAGIC.length + btpairingEntrySIZE + 1) data.length)
  else if data.take btpairingMAGIC.length ≠ btpairingMAGIC then .error .invalidMagic
  else
    let res := btpairingReadEntriesClaim data btpairingMAGIC.length
    if res.1 = [] then .error .empty
    else if data.length - res.2 < 1 then .error (.truncated 1 (data.length - res.2))
    else .ok { entries := res.1, paired_idx := data.getD res.2 0 }

theorem btpairingEntryLoad_ok {data : List Nat}
    (hlen : ¬ data.length < btpairingEntrySIZE)
    (hutf : utf8Valid (((data.drop 22).take 32).takeWhile (fun b => b != 0)) = true) :
    btpairingEntryLoad data = .ok (btpairingEntryLoadClaim data) := by
  simp only [btpairingEntryLoad, btpairingEntryLoadClaim]
  rw [if_neg hlen, if_pos hutf]

theorem readEntries_eq_claim (data : List Nat)
    (hclean : ∀ i < (data.length - 16) / 55, utf8Valid (nameBytesAt data i) = true) :
    ∀ fuel off k, data.length - off ≤ fuel → off = 16 + 55 * k →
      btpairingReadEntries data off = .ok (btpairingReadEntriesClaim data off) := by
  intro fuel
  induction fuel with
  | zero =>
    intro off k hfuel hk
    have hrem : data.length - off < btpairingEntrySIZE := by
      simp only [btpairingEntrySIZE]; omega
    rw [btpairingReadEntries, btpairingReadEntriesClaim, dif_pos hrem, dif_pos hrem]
  | succ n ih =>
    intro off k hfuel hk
    by_cases hrem : data.length - off < btpairingEntrySIZE
    · rw [btpairingReadEntries, btpairingReadEntriesClaim, dif_pos hrem, dif_pos hrem]
    · rw [btpairingReadEntries, btpairingReadEntriesClaim, dif_neg hrem, dif_neg hrem]
      by_cases hv : ((data.drop off).take btpairingEntrySIZE).getD 54 0 ≠ 1
      · rw [if_pos hv, if_pos hv]
      · rw [if_neg hv, if_neg hv]
        have hlenED : ¬ ((data.drop off).take btpairingEntrySIZE).length < btpairingEntrySIZE := by
          simp only [List.length_take, List.length_drop, btpairingEntrySIZE] at *
          omega
        have hutf : utf8Valid ((((data.drop off).take btpairingEntrySIZE).drop 22).take 32
            |>.takeWhile (fun b => b != 0)) = true := by
          subst hk
          have hi : k < (data.length - 16) / 55 := by
            simp only [btpairingEntrySIZE] at hrem
            omega
          have hc := hclean k hi
          simp only [nameBytesAt] at hc
          simpa [btpairingEntrySIZE] using hc
        rw [btpairingEntryLoad_ok hlenED hutf,
          ih (off + btpairingEntrySIZE) (k + 1)
            (by simp only [btpairingEntrySIZE] at *; omega)
            (by simp only [btpairingEntrySIZE] at *; omega)]
        rfl

/-- C7 (amended by the UTF-8 proviso the counterexample forces): provided
the name bytes of every complete 55-byte entry slot decode as UTF-8, the
decoder behaves exactly as the claim describes it (transcribed as
`btpairingLoadClaim`): it accepts consecutive entries, stops without error
at the first `is_valid` byte ≠ 1 or when fewer than 55 bytes remain, fails
`Empty` when zero entries were accepted, and otherwise reads exactly one
trailing `paired_idx` byte, failing `Truncated` when it is absent.
The second conjunct is the claim's special case: with correct magic and
minimum size, a first entry whose `is_valid` byte (`data[70]`) is not `1`
makes decode fail with `Empty` (this needs no UTF-8 proviso but is stated
under it). -/
theorem C7_btpairing_decode_behaviour (data : List Nat)
    (hclean : ∀ i < (data.length - 16) / 55, utf8Valid (nameBytesAt data i) = true) :
    btpairingLoad data = btpairingLoadClaim data
    ∧ (btpairingMAGIC.length + btpairingEntrySIZE + 1 ≤ data.length →
        data.take btpairingMAGIC.length = btpairingMAGIC →
        data.getD 70 0 ≠ 1 →
        btpairingLoad data = .error .empty) := by
  have hloop := readEntries_eq_claim data hclean data.length btpairingMAGIC.length 0
    (Nat.sub_le _ _) (by simp [btpairingMAGIC])
  constructor
  · unfold btpairingLoad btpairingLoadClaim
    by_cases hsz : data.length < btpairingMAGIC.length + btpairingEntrySIZE + 1
    · rw [if_pos hsz, if_pos hsz]
    · rw [if_neg hsz, if_neg hsz]
      by_cases hmg : data.take btpairingMAGIC.length ≠ btpairingMAGIC
      · rw [if_pos hmg, if_pos hmg]
      · rw [if_neg hmg, if_neg hmg, hloop]
  · intro h1 h2 h3
    have hbreak : btpairingReadEntries data btpairingMAGIC.length
        = .ok ([], btpairingMAGIC.length) := by
      rw [btpairingReadEntries]
      have hrem : ¬ data.length - btpairingMAGIC.length < btpairingEntrySIZE := by omega
      rw [dif_neg hrem]
      have hval : ((data.drop btpairingMAGIC.length).take btpairingEntrySIZE).getD 54 0
          = data.getD 70 0 := by
        have h54 : (54 : Nat) < btpairingEntrySIZE := by simp [btpairingEntrySIZE]
        simp only [List.getD_eq_getElem?_getD, List.getElem?_take, h54, if_true,
          List.getElem?_drop]
        norm_num [btpairingMAGIC]
      rw [if_pos (by rw [hval]; exact h3)]
    unfold btpairingLoad
    rw [if_neg (by omega), if_neg (fun hh => hh h2), hbreak]
    rfl

/-- Concrete 72-byte pairing stream whose single entry has `is_valid = 1`
but a name starting with the invalid UTF-8 byte `0xFF`. -/
def c7CexData : List Nat :=
  [66, 84, 80, 65, 73, 82, 69, 68, 73, 78, 70, 79, 72, 69, 65, 68, 0, 0, 0, 0, 0, 0, 0, 0, 0, 0, 0, 0, 0, 0, 0, 0, 0, 0, 0, 0, 0, 0, 255, 0, 0, 0, 0, 0, 0, 0, 0, 0, 0, 0, 0, 0, 0, 0, 0, 0, 0, 0, 0, 0, 0, 0, 0, 0, 0, 0, 0, 0, 0, 0, 1, 0]

/-- Concrete 72-byte pairing stream with one well-formed entry (name `"AB"`)
and `paired_idx = 2`. -/
def c7WitnessData : List Nat :=
  [66, 84, 80, 65, 73, 82, 69, 68, 73, 78, 70, 79, 72, 69, 65, 68, 0, 0, 0, 0, 0, 0, 0, 0, 0, 0, 0, 0, 0, 0, 0, 0, 0, 0, 0, 0, 0, 0, 65, 66, 0, 0, 0, 0, 0, 0, 0, 0, 0, 0, 0, 0, 0, 0, 0, 0, 0, 0, 0, 0, 0, 0, 0, 0, 0, 0, 0, 0, 0, 0, 1, 2]

/-- C7 counterexample: the claim as stated admits only the outcomes
"stop without error", `Empty`, or `Truncated` after the magic/size
precondition, but on `c7CexData` (first entry accepted by its `is_valid`
byte, name bytes not UTF-8) the decoder aborts with `InvalidEncoding`,
while the claim's transcription predicts a successful decode. -/
theorem C7_counterexample_utf8_aborts :
    btpairingLoad c7CexData = .error .invalidEncoding
    ∧ btpairingLoadClaim c7CexData
        = .ok { entries := [{ link_key := List.replicate 16 0,
                              bt_mac := List.replicate 6 0,
                              bt_name := [255],
                              is_valid := true }],
                paired_idx := 0 } := by
  constructor
  · have hle : btpairingEntryLoad ((c7CexData.drop btpairingMAGIC.length).take btpairingEntrySIZE)
        = .error .invalidEncoding := by
      simp only [btpairingEntryLoad]
      rw [if_neg (by decide), if_neg (by decide)]
    have hloop : btpairingReadEntries c7CexData btpairingMAGIC.length
        = .error .invalidEncoding := by
      rw [btpairingReadEntries, dif_neg (by decide), if_neg (by decide), hle]
      rfl
    simp only [btpairingLoad]
    rw [if_neg (by decide), if_neg (by decide), hloop]
  · have hc2 : btpairingReadEntriesClaim c7CexData (btpairingMAGIC.length + btpairingEntrySIZE)
        = ([], btpairingMAGIC.length + btpairingEntrySIZE) := by
      rw [btpairingReadEntriesClaim, dif_pos (by decide)]
    have hc1 : btpairingReadEntriesClaim c7CexData btpairingMAGIC.length
        = ([btpairingEntryLoadClaim ((c7CexData.drop btpairingMAGIC.length).take btpairingEntrySIZE)],
           btpairingMAGIC.length + btpairingEntrySIZE) := by
      rw [btpairingReadEntriesClaim, dif_neg (by decide), if_neg (by decide), hc2]
    simp only [btpairingLoadClaim]
    rw [if_neg (by decide), if_neg (by decide), hc1]
    rfl

/-- Witness for C7 at a concrete well-formed input. -/
theorem C7_btpairing_decode_behaviour_witness :
    (∀ i < (c7WitnessData.length - 16) / 55, utf8Valid (nameBytesAt c7WitnessData i) = true)
    ∧ (btpairingLoad c7WitnessData = btpairingLoadClaim c7WitnessData
       ∧ (btpairingMAGIC.length + btpairingEntrySIZE + 1 ≤ c7WitnessData.length →
           c7WitnessData.take btpairingMAGIC.length = btpairingMAGIC →
           c7WitnessData.getD 70 0 ≠ 1 →
           btpairingLoad c7WitnessData = .error .empty)) :=
  ⟨by decide, C7_btpairing_decode_behaviour c7WitnessData (by decide)⟩

/-! ### Entry insertion (`src/common.py` `indices_atoi_list`,
`appotech-btpairing.py` `AppotechBtPairing.add_entries`) -/

/-- Python `list.insert(i, x)`: a negative index counts from the end
(clamped at 0), an index past the end appends. -/
def pyInsert {a : Type} (l : List a) (i : Int) (x : a) : List a :=
  let n : Nat := if i < 0 then ((l.length : Int) + i).toNat else min i.toNat l.length
  l.take n ++ [x] ++ l.drop n

/-- Descending insertion sort, the semantics of Python's
`result.sort(reverse=True)`. -/
def insertDesc (x : Int) : List Int → List Int
  | [] => [x]
  | y :: ys => if x ≥ y then x :: y :: ys else y :: insertDesc x ys

def sortDesc (l : List Int) : List Int := l.foldr insertDesc []

/-- `indices_atoi_list`: reject any index greater than `maxVal`
(`none` models `return None`), otherwise return the indices sorted in
descending order.  The `int(s)` parsing of the textual CLI arguments is
outside the model: indices arrive pre­parsed. -/
def indices_atoi_list (src : List Int) (maxVal : Int) : Option (List Int) :=
  if ∀ i ∈ src, i ≤ maxVal then some (sortDesc src) else none

/-- `BtPairing.Entry()`: the default empty entry. -/
def defaultEntry : BtPairingEntry :=
  { link_key := [], bt_mac := [], bt_name := [], is_valid := false }

/-- `AppotechBtPairing.add_entries`: validate the requested indices against
the current entry count, then insert an empty entry at each index of the
validated list — which `indices_atoi_list` has sorted descending.
`none` models `sys.exit(1)` (invalid index, or an empty index list). -/
def add_entries (entries : List BtPairingEntry) (idxArgs : List Int) :
    Option (List BtPairingEntry) :=
  match indices_atoi_list idxArgs (entries.length : Int) with
  | none => none
  | some idx =>
    if idx = [] then none
    else some (idx.foldl (fun es i => pyInsert es i defaultEntry) entries)

/-- C5's description, transcribed from the claim: the insertions are applied
strictly in the caller-given order, each index validated against the list
length at its time of application. -/
def add_entries_claim (entries : List BtPairingEntry) (idxArgs : List Int) :
    Option (List BtPairingEntry) :=
  if idxArgs = [] then none
  else
    idxArgs.foldl
      (fun acc i => acc.bind fun es =>
        if i ≤ (es.length : Int) then some (pyInsert es i defaultEntry) else none)
      (some entries)

theorem pyInsert_length {a : Type} (l : List a) (i : Int) (x : a) :
    (pyInsert l i x).length = l.length + 1 := by
  have hn : (if i < 0 then (((l.length : Int)) + i).toNat else min i.toNat l.length) ≤ l.length := by
    by_cases hi : i < 0
    · simp only [if_pos hi]; omega
    · simp only [if_neg hi]; omega
  simp only [pyInsert, List.length_append, List.length_take, List.length_drop,
    List.length_singleton]
  omega

theorem foldl_pyInsert_length (l : List Int) (es : List BtPairingEntry) :
    (l.foldl (fun es i => pyInsert es i defaultEntry) es).length = es.length + l.length := by
  induction l generalizing es with
  | nil => simp
  | cons i rest ih =>
    simp only [List.foldl_cons, ih, pyInsert_length, List.length_cons]
    omega

theorem insertDesc_length (x : Int) (l : List Int) :
    (insertDesc x l).length = l.length + 1 := by
  induction l with
  | nil => rfl
  | cons y ys ih =>
    by_cases h : x ≥ y
    · simp [insertDesc, h]
    · simp [insertDesc, h, ih]

theorem sortDesc_length (l : List Int) : (sortDesc l).length = l.length := by
  induction l with
  | nil => rfl
  | cons x xs ih => simp [sortDesc, List.foldr_cons, insertDesc_length] at *; omega

/-- A distinguishable pre-existing entry (`is_valid = true`). -/
def e1valid : BtPairingEntry :=
  { link_key := [], bt_mac := [], bt_name := [], is_valid := true }

/-- C5 counterexample: for the caller-given index order `[0, 1]` on a
one-entry list, the tool (which sorts the indices descending before
applying them) and the claim's caller-order application produce different
lists: the pre-existing entry ends up at position 1 rather than position 2. -/
theorem C5_counterexample_insertion_order :
    add_entries [e1valid] [0, 1] = some [defaultEntry, e1valid, defaultEntry]
    ∧ add_entries_claim [e1valid] [0, 1] = some [defaultEntry, defaultEntry, e1valid]
    ∧ ([defaultEntry, e1valid, defaultEntry] : List BtPairingEntry)
      ≠ [defaultEntry, defaultEntry, e1valid] := by
  refine ⟨rfl, rfl, by decide⟩

/-- C5 (amended): insertions are applied in descending index order (the
validated list is sorted in reverse before application), each requested
index being validated against the original list length; the result has one
more entry per requested index.  The claim's `[0, 0]` example is unchanged:
position 0 holds the second inserted entry. -/
theorem C5_add_entries_descending (entries : List BtPairingEntry) (idxArgs : List Int)
    (hne : idxArgs ≠ []) (hle : ∀ i ∈ idxArgs, i ≤ (entries.length : Int)) :
    add_entries entries idxArgs
      = some ((sortDesc idxArgs).foldl (fun es i => pyInsert es i defaultEntry) entries)
    ∧ (∀ out, add_entries entries idxArgs = some out →
        out.length = entries.length + idxArgs.length) := by
  have hsne : sortDesc idxArgs ≠ [] := by
    intro h
    apply hne
    have := sortDesc_length idxArgs
    rw [h] at this
    exact List.length_eq_zero.mp this.symm
  have hidx : indices_atoi_list idxArgs (entries.length : Int) = some (sortDesc idxArgs) := by
    simp only [indices_atoi_list]
    rw [if_pos hle]
  have heq : add_entries entries idxArgs
      = some ((sortDesc idxArgs).foldl (fun es i => pyInsert es i defaultEntry) entries) := by
    unfold add_entries
    rw [hidx]
    simp only [if_neg hsne]
  refine ⟨heq, fun out hout => ?_⟩
  rw [heq] at hout
  injection hout with hout
  rw [← hout, foldl_pyInsert_length, sortDesc_length]

/-- Witness for C5 at the claim's own example `[0, 0]`. -/
theorem C5_add_entries_descending_witness :
    (([0, 0] : List Int) ≠ []
      ∧ (∀ i ∈ ([0, 0] : List Int), i ≤ (List.length [e1valid] : Int)))
    ∧ (add_entries [e1valid] [0, 0]
        = some ((sortDesc [0, 0]).foldl (fun es i => pyInsert es i defaultEntry) [e1valid])
      ∧ (∀ out, add_entries [e1valid] [0, 0] = some out →
          out.length = List.length [e1valid] + List.length ([0, 0] : List Int))) :=
  ⟨⟨by decide, by decide⟩,
    C5_add_entries_descending [e1valid] [0, 0] (by decide) (by decide)⟩

/-! ### Typed field assignment (`src/common.py` `set_variable`)

Python `str` values are modelled as `List Char`.  `set_variable` dispatches
on the target field's type hint; the three branches the claims exercise are
modelled separately.  In the `str` and `bool` failure branches the source
interpolates the local name `value` into the error message, but `value` is
never assigned on those paths, so Python raises `UnboundLocalError` while
building the message instead of the intended `AppotechError`
(modelled as `Err.unboundLocal`). -/

/-- ASCII lowering; `str.lower()` restricted to the ASCII letters, which is
all the hex/boolean handling relies on. -/
def asciiLower (c : Char) : Char :=
  if 'A' ≤ c ∧ c ≤ 'Z' then Char.ofNat (c.toNat + 32) else c

def hexDigit? (c : Char) : Option Nat :=
  if '0' ≤ c ∧ c ≤ '9' then some (c.toNat - '0'.toNat)
  else if 'a' ≤ c ∧ c ≤ 'f' then some (c.toNat - 'a'.toNat + 10)
  else if 'A' ≤ c ∧ c ≤ 'F' then some (c.toNat - 'A'.toNat + 10)
  else none

/-- `bytes.fromhex`: pairs of hex digits; anything else (including an odd
number of digits) raises `ValueError`. -/
def bytesFromHex : List Char → Option (List Nat)
  | [] => some []
  | [_] => none
  | c1 :: c2 :: rest =>
    match hexDigit? c1, hexDigit? c2, bytesFromHex rest with
    | some h, some l, some bs => some ((16 * h + l) :: bs)
    | _, _, _ => none

/-- The `str` branch of `set_variable`: with a nonempty length range that
excludes the raw text length, the code attempts to raise `OutOfRange` but
crashes with `UnboundLocalError` while formatting the message. -/
def setVarStr (varValue : List Char) (lenRange : Option (Nat × Nat)) :
    Except Err (List Char) :=
  match lenRange with
  | some (lo, hi) =>
    if lo < hi ∧ ¬ (lo ≤ varValue.length ∧ varValue.length < hi) then .error .unboundLocal
    else .ok varValue
  | none => .ok varValue

/-- The `bytes`/`bytearray` branch of `set_variable`: strip `:` and spaces,
lower-case, `bytes.fromhex` (`ValueError` propagates uncaught), then check
the decoded length against the range (here the message formatting succeeds,
so the declared `OutOfRange` error is raised). -/
def setVarBytes (varValue : List Char) (lenRange : Option (Nat × Nat)) :
    Except Err (List Nat) :=
  let cleaned := ((varValue.filter (fun a => a != ':')).filter (fun a => a != ' ')).map asciiLower
  match bytesFromHex cleaned with
  | none => .error .valueError
  | some value =>
    match lenRange with
    | some (lo, hi) =>
      if lo < hi ∧ ¬ (lo ≤ value.length ∧ value.length < hi) then .error .outOfRange
      else .ok value
    | none => .ok value

/-- The `bool` branch of `set_variable`: accept `1/true/0/false`
case-insensitively; any other token makes the code attempt the
`InvalidValue` error, which crashes with `UnboundLocalError` while
formatting the message. -/
def setVarBool (varValue : List Char) : Except Err Bool :=
  let lowered := varValue.map asciiLower
  if lowered = ['1'] ∨ lowered = ['t', 'r', 'u', 'e'] then .ok true
  else if lowered = ['0'] ∨ lowered = ['f', 'a', 'l', 's', 'e'] then .ok false
  else .error .unboundLocal

/-- C3: evaluating `set_variable` at the claim's inputs.  `bt_name` given a
33-character text against the `0..32` constraint crashes with
`UnboundLocalError` (not the claimed `OutOfRange`); `bt_mac` given
`"AA:BB:CC:DD:EE:FF"` succeeds with exactly the 6 raw bytes; a boolean
field given `"yes"` crashes with `UnboundLocalError`
(not the claimed `InvalidValue`). -/
theorem C3_set_variable_behaviour :
    setVarStr (List.replicate 33 'a') (some (0, 33)) = .error .unboundLocal
    ∧ setVarBytes
        ['A', 'A', ':', 'B', 'B', ':', 'C', 'C', ':', 'D', 'D', ':', 'E', 'E', ':', 'F', 'F']
        (some (6, 7))
      = .ok [0xAA, 0xBB, 0xCC, 0xDD, 0xEE, 0xFF]
    ∧ setVarBool ['y', 'e', 's'] = .error .unboundLocal := by
  refine ⟨by decide, ?_, by decide⟩
  rfl

/-! ### SfxBlob codec (`src/obj/sfx.py`)

A fixed `0x800`-byte descriptor table (`<IHH` descriptors: u32 offset,
u16 size in 256-byte chunks, u16 samplerate) followed by entry payloads;
`samplerate = 0` selects the MP3 variant, nonzero the WAV variant whose
payload carries a fixed 256-byte trailer. -/

def sfxHDR_SIZE : Nat := 0x800

/-- `struct.calcsize("<IHH") = 8`. -/
def sfxEntrySIZE : Nat := 8

def WAV_TRAILER_SIZE : Nat := 0x100

/-- `WavSfxEntry.TRAILER_MAGIC = b"WAV\x00"`. -/
def wavTRAILER_MAGIC : List Nat := [87, 65, 86, 0]

inductive SfxEntry where
  | mp3 (offset size samplerate : Nat) (contents : List Nat)
  | wav (offset size samplerate : Nat) (contents trailer : List Nat)
      (trSamplerate trResolution : Nat)
  deriving Repr, DecidableEq

/-- `total_size_in_bytes`: `size*256` for MP3, `size*256 + 256` for WAV. -/
def sfxTotalSize : SfxEntry → Nat
  | .mp3 _ size _ _ => size * 0x100
  | .wav _ size _ _ _ _ _ => size * 0x100 + WAV_TRAILER_SIZE

/-- One unpacked `<IHH` descriptor read at byte offset `off`
(little-endian). -/
def sfxDescAt (data : List Nat) (off : Nat) : Nat × Nat × Nat :=
  (data.getD off 0 + 256 * data.getD (off + 1) 0 + 65536 * data.getD (off + 2) 0
     + 16777216 * data.getD (off + 3) 0,
   data.getD (off + 4) 0 + 256 * data.getD (off + 5) 0,
   data.getD (off + 6) 0 + 256 * data.getD (off + 7) 0)

/-- The header walk of `SfxBlob.load`: `for off in range(0, HDR_SIZE, 8)`,
stopping at the first all-zero descriptor.  The structural `slots`
parameter counts the remaining loop iterations
(`HDR_SIZE / 8` at the start). -/
def sfxReadHeader (data : List Nat) : Nat → Nat → List (Nat × Nat × Nat)
  | 0, _ => []
  | n + 1, off =>
    let d := sfxDescAt data off
    if d.1 = 0 ∧ d.2.1 = 0 ∧ d.2.2 = 0 then []
    else d :: sfxReadHeader data n (off + sfxEntrySIZE)

/-- `WavSfxEntry.import_from_blob`: if the last `0x100` bytes do not start
with the trailer magic, only warn and keep the payload as-is with an empty
trailer; otherwise split off the trailer (`Truncated` when it is shorter
than `0x100` bytes) and unpack `tr_samplerate`/`tr_resolution` from its
bytes 4 and 5. -/
def wavImportFromBlob (offset size samplerate : Nat) (data : List Nat) :
    Except Err SfxEntry :=
  let wavTest := (data.drop (data.length - WAV_TRAILER_SIZE)).take 4
  if wavTest ≠ wavTRAILER_MAGIC then
    .ok (.wav offset size samplerate data [] 0 0)
  else
    let trailer := data.drop (data.length - WAV_TRAILER_SIZE)
    if trailer.length ≠ WAV_TRAILER_SIZE then
      .error (.truncated WAV_TRAILER_SIZE trailer.length)
    else
      .ok (.wav offset size samplerate (data.take (data.length - WAV_TRAILER_SIZE))
        trailer (trailer.getD 4 0) (trailer.getD 5 0))

/-- The per-entry phase of `SfxBlob.load`: compute the entry's span,
check `len(data) < span` (`Truncated`), then import from
`data[offset : offset + span]`.  The MP3 variant stores the slice
verbatim. -/
def sfxImportEntry (data : List Nat) (d : Nat × Nat × Nat) : Except Err SfxEntry :=
  let span := if d.2.2 ≠ 0 then d.2.1 * 0x100 + WAV_TRAILER_SIZE else d.2.1 * 0x100
  if data.length < span then .error (.truncated span data.length)
  else if d.2.2 ≠ 0 then
    wavImportFromBlob d.1 d.2.1 d.2.2 ((data.drop d.1).take span)
  else
    .ok (.mp3 d.1 d.2.1 d.2.2 ((data.drop d.1).take span))

/-- `SfxBlob.load`: require at least the header (`Truncated`), walk the
descriptor slots, then import each entry's payload in order. -/
def sfxLoad (data : List Nat) : Except Err (List SfxEntry) :=
  if data.length < sfxHDR_SIZE then .error (.truncated sfxHDR_SIZE data.length)
  else
    (sfxReadHeader data (sfxHDR_SIZE / sfxEntrySIZE) 0).mapM (sfxImportEntry data)

/-- C2's failing input: one MP3 descriptor `(offset = 0x800, size = 1,
samplerate = 0)` in the table, but only `0x80` payload bytes after the
header, so `offset + span = 0x900` exceeds the `0x880`-byte buffer. -/
def c2Data : List Nat :=
  [0, 8, 0, 0, 1, 0, 0, 0] ++ List.replicate (sfxHDR_SIZE - 8) 0
    ++ List.replicate 0x80 0xAA

/-- C2: the decoder checks `len(data) < span` — not
`descriptor.offset + span` as claimed — so on `c2Data` it raises no
`Truncated` and silently imports only the `0x80` bytes that exist
(the slice `data[offset : offset + span]` clamps), although the entry's
declared span is `0x100` and `offset + span` exceeds the buffer length. -/
theorem sfxReadHeader_succ (data : List Nat) (n off : Nat) :
    sfxReadHeader data (n + 1) off
      = if (sfxDescAt data off).1 = 0 ∧ (sfxDescAt data off).2.1 = 0
            ∧ (sfxDescAt data off).2.2 = 0
        then []
        else sfxDescAt data off :: sfxReadHeader data n (off + sfxEntrySIZE) := rfl

theorem c2Data_length : c2Data.length = 0x880 := by
  rw [c2Data, List.length_append, List.length_append, List.length_replicate,
    List.length_replicate]
  norm_num [sfxHDR_SIZE]

theorem c2Data_getD_low {i : Nat} (h : i < 8) :
    c2Data.getD i 0 = ([0, 8, 0, 0, 1, 0, 0, 0] : List Nat).getD i 0 := by
  rw [c2Data, List.getD_append _ _ _ _
      (by rw [List.length_append, List.length_replicate]; simp [sfxHDR_SIZE]; omega),
    List.getD_append _ _ _ _ (by simp; omega)]

theorem c2Data_getD_zero {i : Nat} (h1 : 8 ≤ i) (h2 : i < 2048) :
    c2Data.getD i 0 = 0 := by
  rw [c2Data, List.getD_append _ _ _ _
      (by rw [List.length_append, List.length_replicate]; simp [sfxHDR_SIZE]; omega)]
  rw [List.getD_append_right _ _ _ _ (by simp; omega)]
  rw [List.getD_eq_getElem?_getD, List.getElem?_replicate]
  rw [if_pos (by simp [sfxHDR_SIZE]; omega)]
  rfl

theorem C2_sfx_bounds_check_ignores_offset :
    sfxLoad c2Data = .ok [.mp3 0x800 1 0 (List.replicate 0x80 0xAA)]
    ∧ c2Data.length < 0x800 + 0x100
    ∧ 0x100 ≤ c2Data.length
    ∧ (List.replicate 0x80 0xAA).length ≠ 0x100 := by
  have hlen := c2Data_length
  have hdesc0 : sfxDescAt c2Data 0 = (0x800, 1, 0) := by
    simp only [sfxDescAt]
    rw [c2Data_getD_low (by omega), c2Data_getD_low (by omega), c2Data_getD_low (by omega),
      c2Data_getD_low (by omega), c2Data_getD_low (by omega), c2Data_getD_low (by omega),
      c2Data_getD_low (by omega), c2Data_getD_low (by omega)]
    rfl
  have hdesc1 : sfxDescAt c2Data 8 = (0, 0, 0) := by
    simp only [sfxDescAt]
    rw [c2Data_getD_zero (by omega) (by omega), c2Data_getD_zero (by omega) (by omega),
      c2Data_getD_zero (by omega) (by omega), c2Data_getD_zero (by omega) (by omega),
      c2Data_getD_zero (by omega) (by omega), c2Data_getD_zero (by omega) (by omega),
      c2Data_getD_zero (by omega) (by omega), c2Data_getD_zero (by omega) (by omega)]
  have hhdr : sfxReadHeader c2Data (sfxHDR_SIZE / sfxEntrySIZE) 0 = [(0x800, 1, 0)] := by
    have h256 : sfxHDR_SIZE / sfxEntrySIZE = 255 + 1 := by norm_num [sfxHDR_SIZE, sfxEntrySIZE]
    rw [h256, sfxReadHeader_succ, hdesc0]
    rw [if_neg (by decide)]
    have hoff : (0 + sfxEntrySIZE : Nat) = 8 := by norm_num [sfxEntrySIZE]
    rw [hoff, show (255 : Nat) = 254 + 1 from rfl, sfxReadHeader_succ, hdesc1]
    rw [if_pos (by decide)]
  have hdrop : c2Data.drop 0x800 = List.replicate 128 0xAA := by
    rw [c2Data, @List.drop_left' Nat
      ([0, 8, 0, 0, 1, 0, 0, 0] ++ List.replicate (sfxHDR_SIZE - 8) 0)
      (List.replicate 128 0xAA) 0x800
      (by rw [List.length_append, List.length_replicate]; norm_num [sfxHDR_SIZE])]
  have himp : sfxImportEntry c2Data (0x800, 1, 0)
      = .ok (.mp3 0x800 1 0 (List.replicate 128 0xAA)) := by
    simp only [sfxImportEntry]
    rw [if_neg (by rw [hlen]; decide)]
    rw [if_neg (by decide)]
    rw [hdrop, List.take_of_length_le (by rw [List.length_replicate]; decide)]
  have hload : sfxLoad c2Data = .ok [.mp3 0x800 1 0 (List.replicate 0x80 0xAA)] := by
    simp only [sfxLoad]
    rw [if_neg (by rw [hlen]; decide), hhdr, List.mapM_cons, List.mapM_nil, himp]
    rfl
  exact ⟨hload, by rw [hlen]; decide, by rw [hlen]; decide,
    by rw [List.length_replicate]; decide⟩

/-! ### SFX heuristic locator (`appotech-sfx.py` `extract_load_input`)

`find_all` (`src/common.py`) repeatedly calls `bytes.find` from one past
the previous hit, yielding all occurrence positions in ascending order.
The locator scans `input[:-HDR_SIZE]` for the 4-byte marker `00 08 00 00`,
skipping any candidate not aligned to 0x80 and any candidate whose
`HDR_SIZE`-byte window is not more than 80% zero bytes, and returns the
first survivor (`none` models the `NotFound` exit). -/

def sfxMAGIC : List Nat := [0, 8, 0, 0]

/-- Whether `pat` occurs in `hay` at position `p`. -/
def matchAtB (hay pat : List Nat) (p : Nat) : Bool :=
  (hay.drop p).take pat.length == pat

/-- Python `hay.find(pat, start)`: the first occurrence position at or
after `start`, `none` for `-1`. -/
def pyFind (hay pat : List Nat) (start : Nat) : Option Nat :=
  if _h : hay.length < start + pat.length then none
  else if (hay.drop start).take pat.length == pat then some start
  else pyFind hay pat (start + 1)
  termination_by hay.length + 1 - start
  decreasing_by simp_wf; omega

theorem matchAtB_false_of_overflow {hay pat : List Nat} {q : Nat}
    (hne : pat ≠ []) (h : hay.length < q + pat.length) :
    matchAtB hay pat q = false := by
  rw [matchAtB, beq_eq_false_iff_ne]
  intro heq
  have hlen := congrArg List.length heq
  simp only [List.length_take, List.length_drop] at hlen
  have : 0 < pat.length := List.length_pos.mpr hne
  omega

theorem pyFind_some_spec (hay pat : List Nat) :
    ∀ fuel start p, hay.length + 1 - start ≤ fuel → pyFind hay pat start = some p →
      start ≤ p ∧ matchAtB hay pat p = true ∧ p + pat.length ≤ hay.length
        ∧ ∀ q, start ≤ q → q < p → matchAtB hay pat q = false := by
  intro fuel
  induction fuel with
  | zero =>
    intro start p hfuel h
    rw [pyFind, dif_pos (by omega)] at h
    exact absurd h (by simp)
  | succ n ih =>
    intro start p hfuel h
    rw [pyFind] at h
    by_cases hg : hay.length < start + pat.length
    · rw [dif_pos hg] at h
      exact absurd h (by simp)
    · rw [dif_neg hg] at h
      by_cases hm : ((hay.drop start).take pat.length == pat) = true
      · rw [if_pos hm] at h
        injection h with h
        subst h
        exact ⟨le_refl _, hm, by omega, fun q hq1 hq2 => absurd (lt_of_le_of_lt hq1 hq2)
          (lt_irrefl _)⟩
      · rw [if_neg hm] at h
        obtain ⟨h1, h2, h3, h4⟩ := ih (start + 1) p (by omega) h
        refine ⟨by omega, h2, h3, fun q hq1 hq2 => ?_⟩
        rcases eq_or_lt_of_le hq1 with rfl | hlt
        · exact Bool.eq_false_iff.mpr (by simpa [matchAtB] using hm)
        · exact h4 q hlt hq2

theorem pyFind_none_spec (hay pat : List Nat) (hne : pat ≠ []) :
    ∀ fuel start, hay.length + 1 - start ≤ fuel → pyFind hay pat start = none →
      ∀ q, start ≤ q → matchAtB hay pat q = false := by
  intro fuel
  induction fuel with
  | zero =>
    intro start hfuel _h q hq
    exact matchAtB_false_of_overflow hne
      (by have : 0 < pat.length := List.length_pos.mpr hne; omega)
  | succ n ih =>
    intro start hfuel h q hq
    rw [pyFind] at h
    by_cases hg : hay.length < start + pat.length
    · exact matchAtB_false_of_overflow hne (by omega)
    · rw [dif_neg hg] at h
      by_cases hm : ((hay.drop start).take pat.length == pat) = true
      · rw [if_pos hm] at h
        exact absurd h (by simp)
      · rw [if_neg hm] at h
        rcases eq_or_lt_of_le hq with rfl | hlt
        · exact Bool.eq_false_iff.mpr (by simpa [matchAtB] using hm)
        · exact ih (start + 1) (by omega) h q hlt

/-- `find_all` (`src/common.py`), from a given start: chase `find` results,
collecting positions in ascending order. -/
def findAllFrom (hay pat : List Nat) (start : Nat) : List Nat :=
  match hfind : pyFind hay pat start with
  | none => []
  | some p => p :: findAllFrom hay pat (p + 1)
  termination_by hay.length + 1 - start
  decreasing_by
    obtain ⟨h1, _h2, h3, _h4⟩ :=
      pyFind_some_spec hay pat (hay.length + 1) start p (by omega) hfind
    simp_wf
    omega

def find_all (hay pat : List Nat) : List Nat := findAllFrom hay pat 0

theorem findAllFrom_none {hay pat : List Nat} {start : Nat}
    (h : pyFind hay pat start = none) : findAllFrom hay pat start = [] := by
  rw [findAllFrom]
  split <;> simp_all

theorem findAllFrom_some {hay pat : List Nat} {start p : Nat}
    (h : pyFind hay pat start = some p) :
    findAllFrom hay pat start = p :: findAllFrom hay pat (p + 1) := by
  rw [findAllFrom]
  split <;> simp_all

theorem findAllFrom_eq_filter (hay pat : List Nat) (hne : pat ≠ []) :
    ∀ fuel start, hay.length + 1 - start ≤ fuel →
      findAllFrom hay pat start
        = (List.range' start (hay.length - start)).filter (matchAtB hay pat) := by
  have hpat : 0 < pat.length := List.length_pos.mpr hne
  intro fuel
  induction fuel with
  | zero =>
    intro start hfuel
    have hnone : pyFind hay pat start = none := by
      rw [pyFind, dif_pos (by omega)]
    rw [findAllFrom_none hnone, show hay.length - start = 0 by omega]
    rfl
  | succ n ih =>
    intro start hfuel
    cases hfind : pyFind hay pat start with
    | none =>
      rw [findAllFrom_none hfind]
      have hspec := pyFind_none_spec hay pat hne (hay.length + 1) start (by omega) hfind
      symm
      rw [List.filter_eq_nil_iff]
      intro q hq
      have hq' : start ≤ q := (List.mem_range'_1.mp hq).1
      simp [hspec q hq']
    | some p =>
      obtain ⟨h1, h2, h3, h4⟩ :=
        pyFind_some_spec hay pat (hay.length + 1) start p (by omega) hfind
      rw [findAllFrom_some hfind, ih (p + 1) (by omega)]
      have hsplit : List.range' start (hay.length - start)
          = List.range' start (p - start) ++ List.range' p (hay.length - p) := by
        have hap := List.range'_append start (p - start) (hay.length - p) 1
        rw [show start + 1 * (p - start) = p by omega] at hap
        rw [show hay.length - p + (p - start) = hay.length - start by omega] at hap
        exact hap.symm
      rw [hsplit, List.filter_append]
      have hleft : (List.range' start (p - start)).filter (matchAtB hay pat) = [] := by
        rw [List.filter_eq_nil_iff]
        intro q hq
        obtain ⟨hq1, hq2⟩ := List.mem_range'_1.mp hq
        simp [h4 q hq1 (by omega)]
      rw [hleft, List.nil_append,
        show hay.length - p = (hay.length - (p + 1)) + 1 by omega,
        List.range'_succ, List.filter_cons, if_pos (by simp [h2])]

theorem find_all_eq_filter (hay pat : List Nat) (hne : pat ≠ []) :
    find_all hay pat = (List.range hay.length).filter (matchAtB hay pat) := by
  rw [find_all, findAllFrom_eq_filter hay pat hne (hay.length + 1) 0 (by omega),
    List.range_eq_range', Nat.sub_zero]

/-- `AppotechSfx.extract_load_input`, the candidate search only: enumerate
the marker occurrences in `input[:-HDR_SIZE]` in ascending order; skip a
candidate not aligned to 0x80; skip a candidate whose `HDR_SIZE`-byte
window (of the full input) has too few zero bytes — the code compares
`zeroes <= HDR_SIZE * 0.8`, whose threshold `1638.4` is not an integer, so
it is modelled exactly by `HDR_SIZE * 4 < zeroes * 5`; return the first
survivor (`none` models the `NotFound` error exit). -/
def extract_locate (input : List Nat) : Option Nat :=
  (find_all (input.take (input.length - sfxHDR_SIZE)) sfxMAGIC).find?
    (fun p => decide (p % 0x80 = 0)
      && decide (sfxHDR_SIZE * 4 < ((input.drop p).take sfxHDR_SIZE).count 0 * 5))

/-- C8's description, transcribed from the claim: all marker occurrences in
the buffer excluding the final `HDR_SIZE` bytes, in ascending address
order; reject misaligned candidates and those whose window's zero-byte
fraction is ≤ 80% (stated as the exact rational comparison); first
survivor. -/
def extract_locate_claim (input : List Nat) : Option Nat :=
  ((List.range (input.length - sfxHDR_SIZE)).filter
      (matchAtB (input.take (input.length - sfxHDR_SIZE)) sfxMAGIC)).find?
    (fun p => decide (p % 0x80 = 0)
      && decide ((4 : ℚ) / 5 < ((((input.drop p).take sfxHDR_SIZE).count 0 : ℚ)) / sfxHDR_SIZE))

theorem density_iff (c : Nat) :
    sfxHDR_SIZE * 4 < c * 5 ↔ (4 : ℚ) / 5 < (c : ℚ) / sfxHDR_SIZE := by
  have hpos : (0 : ℚ) < (sfxHDR_SIZE : ℚ) := by norm_num [sfxHDR_SIZE]
  rw [div_lt_div_iff₀ (by norm_num) hpos]
  rw [show (4 : ℚ) * (sfxHDR_SIZE : ℚ) = ((sfxHDR_SIZE * 4 : Nat) : ℚ) by push_cast; ring]
  rw [show (c : ℚ) * 5 = ((c * 5 : Nat) : ℚ) by push_cast; ring]
  exact Nat.cast_lt.symm

/-- C8: the locator equals the claim's description on every input — the
occurrences of `00 08 00 00` are scanned in ascending order within the
buffer minus its final `0x800` bytes, candidates failing the 0x80
alignment or the strict `> 80%` zero-density test are skipped, and the
first survivor is returned (`none`, i.e. `NotFound`, when none survives). -/
theorem C8_sfx_locator (input : List Nat) :
    extract_locate input = extract_locate_claim input := by
  unfold extract_locate extract_locate_claim
  rw [find_all_eq_filter _ _ (by decide)]
  have hlen : (input.take (input.length - sfxHDR_SIZE)).length
      = input.length - sfxHDR_SIZE := by
    rw [List.length_take]
    omega
  rw [hlen]
  have hpred : (fun p => decide (p % 0x80 = 0)
        && decide (sfxHDR_SIZE * 4 < ((input.drop p).take sfxHDR_SIZE).count 0 * 5))
      = (fun p => decide (p % 0x80 = 0)
        && decide ((4 : ℚ) / 5
            < ((((input.drop p).take sfxHDR_SIZE).count 0 : ℚ)) / sfxHDR_SIZE)) := by
    funext p
    rw [decide_eq_decide.mpr (density_iff _)]
  rw [hpred]

end AppotechRE
